import Mathlib

/-!
Verification of the xet-core CAS/shard protocol layer.

Bytes are modelled as `List Nat` (each entry a byte value), machine integers as
`Nat`, fallible operations as `Except`.  Definitions are translated from the
Rust sources under the crates cas_object, cas_types, shard_client and
cas_client; pieces of the repository that are referenced but whose sources are
not available (byte_grouping, mdb_shard structs, retry_strategy, Key parsing,
read_u32) are modelled from the specification and marked as such in their doc
comments.
-/

namespace CasObject

/-- Error type of the cas_object crate (error.rs, simplified to the
constructors used by compression_scheme.rs). -/
inductive CasObjectError where
  | FormatError (msg : String)
  | IOError (msg : String)
deriving DecidableEq, Repr

/-- CompressionScheme enum from compression_scheme.rs: a closed enumeration
with repr(u8) discriminants 0..3. -/
inductive CompressionScheme where
  | None
  | LZ4
  | ByteGrouping4LZ4
  | ByteGrouping2LZ4
deriving DecidableEq, Repr

/-- The repr(u8) discriminant of a CompressionScheme (None = 0, LZ4 = 1,
ByteGrouping4LZ4 = 2, ByteGrouping2LZ4 = 3). -/
def CompressionScheme.toByte : CompressionScheme → Nat
  | .None => 0
  | .LZ4 => 1
  | .ByteGrouping4LZ4 => 2
  | .ByteGrouping2LZ4 => 3

/-- TryFrom u8 for CompressionScheme (compression_scheme.rs lines 51-63):
bytes 0..3 parse to the four schemes, anything else is a FormatError. -/
def CompressionScheme.tryFromByte (value : Nat) : Except CasObjectError CompressionScheme :=
  match value with
  | 0 => .ok CompressionScheme.None
  | 1 => .ok CompressionScheme.LZ4
  | 2 => .ok CompressionScheme.ByteGrouping4LZ4
  | 3 => .ok CompressionScheme.ByteGrouping2LZ4
  | _ => .error (.FormatError ("cannot convert value " ++ toString value ++ " to CompressionScheme"))

/-- Modelled from the spec: the LZ4 frame encoder of the external lz4_flex
crate (not part of this repository).  The spec's contract is that the frame
decoder inverts the encoder and that corrupt or truncated streams fail with a
decode error; we model a concrete executable frame format with exactly those
properties (token 1 introduces a literal byte, token 0 terminates the frame). -/
def lz4FrameEncode : List Nat → List Nat
  | [] => [0]
  | b :: rest => 1 :: b :: lz4FrameEncode rest

/-- Modelled from the spec: the LZ4 frame decoder of the external lz4_flex
crate; inverse of lz4FrameEncode, failing on corrupt or truncated frames.
Bytes after the frame terminator are ignored, as a FrameDecoder stops at the
end of the frame. -/
def lz4FrameDecode : List Nat → Except CasObjectError (List Nat)
  | 0 :: _ => .ok []
  | 1 :: b :: rest => (lz4FrameDecode rest).map (b :: ·)
  | _ => .error (.IOError "corrupt or truncated LZ4 frame")

/-- Flattened a-by-c grid of bytes: row q holds the c bytes f q 0 .. f q (c-1),
and the a rows are concatenated in order. -/
def planesFlat (a c : Nat) (f : Nat → Nat → Nat) : List Nat :=
  ((List.range a).map fun q => (List.range c).map fun r => f q r).flatten

/-- Modelled from the spec (byte_grouping sources are not under src/):
generic byte-plane split.  Treat data as a sequence of n-byte records
(k = len / n full records); the byte at local offset i of record j is
appended to plane i; planes are concatenated in order 0..n, with the
trailing remainder bytes appended untouched as a final tail. -/
def bgSplit (n : Nat) (data : List Nat) : List Nat :=
  planesFlat n (data.length / n) (fun i j => data.getD (n * j + i) 0)
    ++ data.drop (n * (data.length / n))

/-- Modelled from the spec (byte_grouping sources are not under src/):
exact inverse of bgSplit — reconstruct the original interleaving from the
concatenated planes, including the irregular tail. -/
def bgRegroup (n : Nat) (g : List Nat) : List Nat :=
  planesFlat (g.length / n) n (fun j i => g.getD ((g.length / n) * i + j) 0)
    ++ g.drop (n * (g.length / n))

/-- bg4_split from the byte_grouping module (modelled from the spec). -/
def bg4_split (data : List Nat) : List Nat := bgSplit 4 data

/-- bg4_regroup from the byte_grouping module (modelled from the spec). -/
def bg4_regroup (g : List Nat) : List Nat := bgRegroup 4 g

/-- bg2_split from the byte_grouping module (modelled from the spec). -/
def bg2_split (data : List Nat) : List Nat := bgSplit 2 data

/-- bg2_regroup from the byte_grouping module (modelled from the spec). -/
def bg2_regroup (g : List Nat) : List Nat := bgRegroup 2 g

/-- lz4_compress_from_slice (compression_scheme.rs lines 94-98): write the
input through a frame encoder. -/
def lz4_compress_from_slice (data : List Nat) : Except CasObjectError (List Nat) :=
  .ok (lz4FrameEncode data)

/-- lz4_decompress_from_slice (compression_scheme.rs lines 100-104): decode
one frame from the input. -/
def lz4_decompress_from_slice (data : List Nat) : Except CasObjectError (List Nat) :=
  lz4FrameDecode data

/-- bg4_lz4_compress_from_slice (compression_scheme.rs lines 111-128): split
into 4 byte planes, then frame-encode.  The unsafe global timing accumulators
of the source are diagnostic only and are not modelled. -/
def bg4_lz4_compress_from_slice (data : List Nat) : Except CasObjectError (List Nat) :=
  let groups := bg4_split data
  .ok (lz4FrameEncode groups)

/-- bg4_lz4_decompress_from_slice (compression_scheme.rs lines 130-153):
decode the frame, then regroup the 4 byte planes. -/
def bg4_lz4_decompress_from_slice (data : List Nat) : Except CasObjectError (List Nat) :=
  (lz4FrameDecode data).map fun g => bg4_regroup g

/-- bg2_lz4_compress_from_slice (compression_scheme.rs lines 155-163). -/
def bg2_lz4_compress_from_slice (data : List Nat) : Except CasObjectError (List Nat) :=
  let groups := bg2_split data
  .ok (lz4FrameEncode groups)

/-- bg2_lz4_decompress_from_slice (compression_scheme.rs lines 165-180). -/
def bg2_lz4_decompress_from_slice (data : List Nat) : Except CasObjectError (List Nat) :=
  (lz4FrameDecode data).map fun g => bg2_regroup g

/-- CompressionScheme::compress_from_slice (compression_scheme.rs lines 66-73):
None is the identity, the other three schemes dispatch to their compressors. -/
def CompressionScheme.compress_from_slice :
    CompressionScheme → List Nat → Except CasObjectError (List Nat)
  | .None, data => .ok data
  | .LZ4, data => lz4_compress_from_slice data
  | .ByteGrouping4LZ4, data => bg4_lz4_compress_from_slice data
  | .ByteGrouping2LZ4, data => bg2_lz4_compress_from_slice data

/-- CompressionScheme::decompress_from_slice (compression_scheme.rs
lines 75-82). -/
def CompressionScheme.decompress_from_slice :
    CompressionScheme → List Nat → Except CasObjectError (List Nat)
  | .None, data => .ok data
  | .LZ4, data => lz4_decompress_from_slice data
  | .ByteGrouping4LZ4, data => bg4_lz4_decompress_from_slice data
  | .ByteGrouping2LZ4, data => bg2_lz4_decompress_from_slice data

theorem lz4FrameDecode_lz4FrameEncode (x : List Nat) :
    lz4FrameDecode (lz4FrameEncode x) = .ok x := by
  induction x with
  | nil => rfl
  | cons b rest ih => simp [lz4FrameEncode, lz4FrameDecode, ih, Except.map]

theorem planesFlat_succ (a c : Nat) (f : Nat → Nat → Nat) :
    planesFlat (a + 1) c f = planesFlat a c f ++ (List.range c).map (f a) := by
  simp [planesFlat, List.range_succ]

theorem planesFlat_length (a c : Nat) (f : Nat → Nat → Nat) :
    (planesFlat a c f).length = a * c := by
  induction a with
  | zero => simp [planesFlat]
  | succ a ih => rw [planesFlat_succ]; simp [ih, Nat.succ_mul]

theorem planesFlat_getD (f : Nat → Nat → Nat) {c r : Nat} (hr : r < c) :
    ∀ {a q : Nat}, q < a → (planesFlat a c f).getD (q * c + r) 0 = f q r := by
  intro a
  induction a with
  | zero => intro q hq; omega
  | succ a ih =>
    intro q hq
    rw [planesFlat_succ]
    by_cases hqa : q < a
    · have hlt : q * c + r < (planesFlat a c f).length := by
        rw [planesFlat_length]
        calc q * c + r < q * c + c := Nat.add_lt_add_left hr _
          _ = (q + 1) * c := (Nat.succ_mul q c).symm
          _ ≤ a * c := Nat.mul_le_mul_right c hqa
      rw [List.getD_append _ _ _ _ hlt]
      exact ih hqa
    · have hq' : q = a := by omega
      subst hq'
      have hle : (planesFlat q c f).length ≤ q * c + r := by
        rw [planesFlat_length]; exact Nat.le_add_right _ _
      rw [List.getD_append_right _ _ _ _ hle, planesFlat_length, Nat.add_sub_cancel_left,
        List.getD_eq_getElem?_getD, List.getElem?_map, List.getElem?_range hr]
      simp

theorem bgSplit_length (n : Nat) (data : List Nat) :
    (bgSplit n data).length = data.length := by
  have h := Nat.mul_div_le data.length n
  simp only [bgSplit, List.length_append, planesFlat_length, List.length_drop]
  omega

theorem bgRegroup_length (n : Nat) (g : List Nat) :
    (bgRegroup n g).length = g.length := by
  have h := Nat.mul_div_le g.length n
  have hc : g.length / n * n = n * (g.length / n) := Nat.mul_comm _ _
  simp only [bgRegroup, List.length_append, planesFlat_length, List.length_drop]
  omega

/-- Core inverse property of the byte-plane transform: regrouping the split of
any byte sequence under any group count reconstructs the sequence exactly. -/
theorem bgRegroup_bgSplit (n : Nat) (data : List Nat) :
    bgRegroup n (bgSplit n data) = data := by
  rcases Nat.eq_zero_or_pos n with hn | hn
  · subst hn
    simp [bgSplit, bgRegroup, planesFlat, Nat.div_zero]
  · have hglen : (bgSplit n data).length = data.length := bgSplit_length n data
    apply List.ext_getElem (by rw [bgRegroup_length, hglen])
    intro i h1 h2
    rw [← List.getD_eq_getElem _ 0 h1, ← List.getD_eq_getElem _ 0 h2]
    set k := data.length / n with hkdef
    have hkn : n * k ≤ data.length := Nat.mul_div_le data.length n
    have hgk : (bgSplit n data).length / n = k := by rw [hglen]
    simp only [bgRegroup, hglen, hgk, ← hkdef]
    by_cases hik : i < k * n
    · -- plane region: write i = j * n + r with j the record index, r the plane
      have hj : i / n < k := (Nat.div_lt_iff_lt_mul hn).2 hik
      have hr : i % n < n := Nat.mod_lt _ hn
      have hi : i / n * n + i % n = i := by
        have := Nat.div_add_mod i n
        have hc : n * (i / n) = i / n * n := Nat.mul_comm _ _
        omega
      rw [← hi]
      have hlt : i / n * n + i % n < (planesFlat k n
          (fun j i2 => (bgSplit n data).getD (k * i2 + j) 0)).length := by
        rw [planesFlat_length, hi]
        have hc : k * n = n * k := Nat.mul_comm _ _
        omega
      rw [List.getD_append _ _ _ _ hlt, planesFlat_getD _ hr hj]
      -- now an index into bgSplit n data inside its own plane region
      have hkr : k * (i % n) + i / n < n * k := by
        calc k * (i % n) + i / n < k * (i % n) + k := Nat.add_lt_add_left hj _
          _ = k * (i % n + 1) := by ring
          _ ≤ k * n := Nat.mul_le_mul_left k hr
          _ = n * k := Nat.mul_comm _ _
      simp only [bgSplit, ← hkdef]
      have hlt2 : k * (i % n) + i / n < (planesFlat n k
          (fun i2 j => data.getD (n * j + i2) 0)).length := by
        rw [planesFlat_length]; exact hkr
      rw [List.getD_append _ _ _ _ hlt2]
      have hcomm : k * (i % n) + i / n = i % n * k + i / n := by
        rw [Nat.mul_comm]
      rw [hcomm, planesFlat_getD _ hj hr]
      have : n * (i / n) + i % n = i / n * n + i % n := by rw [Nat.mul_comm]
      rw [this, hi]
    · -- tail region: both sides defer to the original tail bytes
      have hge : k * n ≤ i := Nat.le_of_not_lt hik
      have hle1 : (planesFlat k n
          (fun j i2 => (bgSplit n data).getD (k * i2 + j) 0)).length ≤ i := by
        rw [planesFlat_length]; exact hge
      rw [List.getD_append_right _ _ _ _ hle1, planesFlat_length,
        List.getD_eq_getElem?_getD, List.getElem?_drop]
      have hidx : n * k + (i - k * n) = i := by
        have hc : k * n = n * k := Nat.mul_comm _ _
        omega
      rw [hidx]
      have hilt : i < (bgSplit n data).length := by rw [hglen]; exact h2
      rw [List.getElem?_eq_getElem hilt, Option.getD_some, ← List.getD_eq_getElem _ 0 hilt]
      -- index i of bgSplit n data, in the tail region of the split
      simp only [bgSplit, ← hkdef]
      have hle2 : (planesFlat n k (fun i2 j => data.getD (n * j + i2) 0)).length ≤ i := by
        rw [planesFlat_length]
        have hc : k * n = n * k := Nat.mul_comm _ _
        omega
      rw [List.getD_append_right _ _ _ _ hle2, planesFlat_length,
        List.getD_eq_getElem?_getD, List.getElem?_drop]
      have hidx2 : n * k + (i - n * k) = i := by omega
      rw [hidx2, ← List.getD_eq_getElem?_getD]

end CasObject

namespace CasTypes

/-- ASCII byte values of a literal string. -/
def asciiBytes (s : String) : List Nat := s.toList.map Char.toNat

/-- Lowercase hex digit character code of a nibble value. -/
def toHexDigit (v : Nat) : Nat := if v < 10 then v + 48 else v + 87

/-- Decode one hex digit character code (0-9, a-f). -/
def fromHexDigit (c : Nat) : Option Nat :=
  if 48 ≤ c ∧ c ≤ 57 then some (c - 48)
  else if 97 ≤ c ∧ c ≤ 102 then some (c - 87)
  else none

/-- Two hex character codes of one byte. -/
def byteToHex (b : Nat) : List Nat := [toHexDigit (b / 16), toHexDigit (b % 16)]

/-- MerkleHash::hex / Display: lowercase hex string of the hash bytes. -/
def bytesToHex (bs : List Nat) : List Nat := bs.flatMap byteToHex

/-- Decode a hex string (pairs of digits) back into bytes. -/
def hexToBytes : List Nat → Option (List Nat)
  | [] => some []
  | c1 :: c2 :: rest => do
    let hi ← fromHexDigit c1
    let lo ← fromHexDigit c2
    let tail ← hexToBytes rest
    pure ((16 * hi + lo) :: tail)
  | [_] => none

/-- Key from cas_types (key.rs is not under src/; modelled from the spec):
composite identity of a namespace prefix (field pfx here; named after a Rust
field whose name is reserved in this development) and a 32-byte content
hash. -/
structure Key where
  pfx : List Nat
  hash : List Nat
deriving DecidableEq, Repr

/-- Canonical display form of a Key: "prefix/hex-hash" (modelled from the
spec). -/
def Key.display (k : Key) : List Nat := k.pfx ++ 47 :: bytesToHex k.hash

/-- Split a byte string at its last '/' (byte 47), returning the parts before
and after; none when no slash occurs. -/
def rsplitSlash : List Nat → Option (List Nat × List Nat)
  | [] => none
  | c :: rest =>
    match rsplitSlash rest with
    | some (p, h) => some (c :: p, h)
    | none => if c = 47 then some ([], rest) else none

/-- Key::from_str, modelled from the spec: parse the canonical
"prefix/hex-hash" string; the prefix (everything before the last slash) must
be non-empty and the hash part must be exactly 64 hex characters (fixed-width
hex of a 32-byte hash). -/
def Key.fromStr (s : List Nat) : Option Key :=
  match rsplitSlash s with
  | none => none
  | some (p, hx) =>
    if p = [] then none
    else if hx.length = 64 then
      match hexToBytes hx with
      | none => none
      | some bs => some ⟨p, bs⟩
    else none

/-- Range from cas_types lib.rs (the source field end is a reserved word here
and is named stop). -/
structure RangeU where
  start : Nat
  stop : Nat
deriving DecidableEq, Repr

/-- CASReconstructionTerm from cas_types lib.rs lines 22-30. -/
structure CASReconstructionTerm where
  hash : List Nat
  unpacked_length : Nat
  range : RangeU
  url : String
  url_range : RangeU
deriving DecidableEq, Repr

/-- QueryReconstructionResponse from cas_types lib.rs lines 32-38. -/
structure QueryReconstructionResponse where
  offset_into_first_range : Nat
  reconstruction : List CASReconstructionTerm
deriving DecidableEq, Repr

/-- UploadShardResponseType from cas_types lib.rs lines 40-45. -/
inductive UploadShardResponseType where
  | Exists
  | SyncPerformed
deriving DecidableEq, Repr

/-- UploadShardResponse from cas_types lib.rs lines 47-51. -/
structure UploadShardResponse where
  result : UploadShardResponseType
  sha_mapping : Option (List (String × String))
deriving DecidableEq, Repr

set_option maxRecDepth 4096 in
theorem byteToHex_bound_all : ∀ b : Nat, b < 256 →
    (byteToHex b).all (fun c => decide (c < 128) && decide (c ≠ 47)) = true := by
  decide

theorem mem_byteToHex {b c : Nat} (hb : b < 256) (hc : c ∈ byteToHex b) :
    c < 128 ∧ c ≠ 47 := by
  have h := byteToHex_bound_all b hb
  rw [List.all_eq_true] at h
  have := h c hc
  simp at this
  exact this

theorem bytesToHex_cons (b : Nat) (t : List Nat) :
    bytesToHex (b :: t) = byteToHex b ++ bytesToHex t := by
  simp [bytesToHex]

theorem mem_bytesToHex {bs : List Nat} (hb : ∀ b ∈ bs, b < 256) :
    ∀ c ∈ bytesToHex bs, c < 128 ∧ c ≠ 47 := by
  induction bs with
  | nil => intro c hc; simp [bytesToHex] at hc
  | cons b t ih =>
    intro c hc
    rw [bytesToHex_cons, List.mem_append] at hc
    rcases hc with hc | hc
    · exact mem_byteToHex (hb b (by simp)) hc
    · exact ih (fun x hx => hb x (by simp [hx])) c hc

theorem bytesToHex_length (bs : List Nat) : (bytesToHex bs).length = 2 * bs.length := by
  induction bs with
  | nil => rfl
  | cons b t ih => rw [bytesToHex_cons]; simp [byteToHex, ih]; omega

theorem fromHexDigit_toHexDigit : ∀ v : Nat, v < 16 →
    fromHexDigit (toHexDigit v) = some v := by
  decide

theorem hexToBytes_bytesToHex {bs : List Nat} (hb : ∀ b ∈ bs, b < 256) :
    hexToBytes (bytesToHex bs) = some bs := by
  induction bs with
  | nil => rfl
  | cons b t ih =>
    have hblt : b < 256 := hb b (by simp)
    rw [bytesToHex_cons]
    show hexToBytes (toHexDigit (b / 16) :: toHexDigit (b % 16) :: bytesToHex t) = some (b :: t)
    rw [hexToBytes, fromHexDigit_toHexDigit _ (by omega), fromHexDigit_toHexDigit _ (by omega),
      ih (fun x hx => hb x (by simp [hx]))]
    simp [Option.bind]
    omega

theorem rsplitSlash_of_not_mem {s : List Nat} (h : 47 ∉ s) : rsplitSlash s = none := by
  induction s with
  | nil => rfl
  | cons c t ih =>
    rw [rsplitSlash, ih (fun hm => h (by simp [hm]))]
    simp only [if_neg (show ¬c = 47 from fun hc => h (by simp [hc]))]

theorem rsplitSlash_append (p : List Nat) {h : List Nat} (hh : 47 ∉ h) :
    rsplitSlash (p ++ 47 :: h) = some (p, h) := by
  induction p with
  | nil =>
    show rsplitSlash (47 :: h) = some ([], h)
    rw [rsplitSlash, rsplitSlash_of_not_mem hh]
    simp
  | cons c t ih =>
    show rsplitSlash (c :: (t ++ 47 :: h)) = some (c :: t, h)
    rw [rsplitSlash, ih]

theorem Key.fromStr_display (k : Key) (hp : k.pfx ≠ []) (hh : k.hash.length = 32)
    (hb : ∀ b ∈ k.hash, b < 256) : Key.fromStr k.display = some k := by
  have hns : 47 ∉ bytesToHex k.hash := fun hm => (mem_bytesToHex hb 47 hm).2 rfl
  rw [Key.fromStr, Key.display, rsplitSlash_append _ hns]
  simp only [if_neg hp]
  rw [if_pos (by rw [bytesToHex_length, hh]), hexToBytes_bytesToHex hb]

end CasTypes

namespace ShardClient

/-- ShardClientError (shard_client error.rs, simplified to the constructors
used by http_shard_client.rs). -/
inductive ShardClientError where
  | InvalidConfig (m : String)
  | InvalidShardKey (m : String)
  | IOError (m : String)
  | Other (m : String)
deriving DecidableEq, Repr

/-- Modelled from the spec: read_u32 from utils serialization_utils (not
under src/) — read a little-endian u32 from the front of the stream; fails
when fewer than 4 bytes remain. -/
def readU32 : List Nat → Option (Nat × List Nat)
  | b0 :: b1 :: b2 :: b3 :: rest =>
    some (b0 + 256 * b1 + 65536 * b2 + 16777216 * b3, rest)
  | _ => none

/-- Little-endian 4-byte encoding of a u32 value. -/
def le32 (n : Nat) : List Nat :=
  [n % 256, n / 256 % 256, n / 65536 % 256, n / 16777216 % 256]

/-- String::from_utf8, modelled from the spec restricted to the ASCII range
that the canonical "prefix/hex-hash" keys use: decoding succeeds exactly when
every byte is below 128 and leaves the bytes unchanged. -/
def fromUtf8Ascii (bs : List Nat) : Option (List Nat) :=
  if bs.all (· < 128) then some bs else none

/-- The key-parsing step of the dedup-probe loop (http_shard_client.rs
lines 219-222): utf8-decode the key bytes, then parse the canonical key
string; both failures map to InvalidShardKey. -/
def parseKeyBytes (bs : List Nat) : Except ShardClientError CasTypes.Key :=
  match fromUtf8Ascii bs with
  | none => .error (.InvalidShardKey "invalid utf8")
  | some s =>
    match CasTypes.Key.fromStr s with
    | none => .error (.InvalidShardKey "malformed key")
    | some k => .ok k

/-- local_shard_name (http_shard_client.rs lines 246-248): hex string of the
hash with extension mdb. -/
def localShardName (hash : List Nat) : List Nat :=
  CasTypes.bytesToHex hash ++ CasTypes.asciiBytes ".mdb"

theorem readU32_length {bs : List Nat} {v : Nat} {rest : List Nat}
    (h : readU32 bs = some (v, rest)) : rest.length + 4 = bs.length := by
  match bs with
  | [] => simp [readU32] at h
  | [_] => simp [readU32] at h
  | [_, _] => simp [readU32] at h
  | [_, _, _] => simp [readU32] at h
  | b0 :: b1 :: b2 :: b3 :: r =>
    simp [readU32] at h
    obtain ⟨-, rfl⟩ := h
    simp

/-- The record-parsing loop of HttpShardClient::get_dedup_shards
(http_shard_client.rs lines 212-235): repeatedly read a little-endian u32 key
length (a failed length-prefix read ends the loop), the key bytes (parsed as
a canonical key; the hash is collected), a little-endian u32 content length
and the content bytes (spawned as a write of the cache file named from the
hash).  Any other read failure aborts the whole call.  Returns the collected
hashes in record order and the (path, content) writes. -/
def parseDedupRecords (cacheDir : List Nat) (bs : List Nat) :
    Except ShardClientError (List (List Nat) × List (List Nat × List Nat)) :=
  match h : readU32 bs with
  | none => .ok ([], [])
  | some (keyLen, rest) =>
    if hk : rest.length < keyLen then .error (.IOError "failed to fill whole buffer")
    else
      match parseKeyBytes (rest.take keyLen) with
      | .error e => .error e
      | .ok key =>
        match h2 : readU32 (rest.drop keyLen) with
        | none => .error (.IOError "failed to read content length")
        | some (contentLen, rest3) =>
          if hc : rest3.length < contentLen then .error (.IOError "failed to fill whole buffer")
          else
            match parseDedupRecords cacheDir (rest3.drop contentLen) with
            | .error e => .error e
            | .ok (hashes, writes) =>
              .ok (key.hash :: hashes,
                (cacheDir ++ 47 :: localShardName key.hash, rest3.take contentLen) :: writes)
termination_by bs.length
decreasing_by
  have e1 := readU32_length h
  have e2 := readU32_length h2
  simp only [List.length_drop] at e2 ⊢
  omega

/-- HttpShardClient (http_shard_client.rs lines 29-34): immutable
configuration; the authenticated transport and retry strategy are modelled at
the call sites. -/
structure HttpShardClient where
  endpoint : List Nat
  cacheDirectory : Option (List Nat)
deriving DecidableEq, Repr

/-- Result of a client call that may also diverge: crash models a Rust panic
(such as an out-of-bounds index). -/
inductive Outcome (α : Type) where
  | crash
  | err (e : ShardClientError)
  | ok (a : α)
deriving DecidableEq, Repr

/-- HttpShardClient::get_dedup_shards (http_shard_client.rs lines 161-243),
release semantics (the debug_assert on the slice length compiles out).  The
successful transport is modelled by the response body the GET returns; the
first result component is the list of request URLs issued, so that a
configuration failure is visibly produced before any URL is built.  On
success the outcome carries the collected hashes and the completed cache
writes (all spawned writes are joined before the call returns). -/
def getDedupShards (c : HttpShardClient) (pfx : List Nat) (chunk_hash : List (List Nat))
    (_salt : List Nat) (responseBody : List Nat) :
    List (List Nat) × Outcome (List (List Nat) × List (List Nat × List Nat)) :=
  match c.cacheDirectory with
  | none => ([], .err (.InvalidConfig "cache directory not configured for shard storage"))
  | some shardCacheDir =>
    match chunk_hash with
    | [] => ([], .crash)
    | h0 :: _ =>
      let key : CasTypes.Key := ⟨pfx, h0⟩
      let url := c.endpoint ++ CasTypes.asciiBytes "/chunk/" ++ key.display
      match parseDedupRecords shardCacheDir responseBody with
      | .error e => ([url], .err e)
      | .ok (downloadedShards, writes) => ([url], .ok (downloadedShards, writes))

/-- An outbound shard-registration request: method (PUT when force_sync,
otherwise POST), URL and body. -/
structure UploadRequest where
  isPut : Bool
  url : List Nat
  body : List Nat
deriving DecidableEq, Repr

/-- HttpShardClient::upload_shard (http_shard_client.rs lines 71-105): build
the key and URL, issue PUT or POST with the raw shard bytes as body, parse
the JSON envelope of the response.  The retrying transport and the serde
decode are folded into the transport oracle mapping the issued request to the
parsed response; neither of them sees the salt, which the source ignores. -/
def uploadShard (c : HttpShardClient) (pfx : List Nat) (hash : List Nat)
    (force_sync : Bool) (shard_data : List Nat) (_salt : List Nat)
    (transport : UploadRequest → Except ShardClientError CasTypes.UploadShardResponse) :
    Except ShardClientError CasTypes.UploadShardResponse :=
  let key : CasTypes.Key := ⟨pfx, hash⟩
  let url := c.endpoint ++ CasTypes.asciiBytes "/shard/" ++ key.display
  transport { isPut := force_sync, url := url, body := shard_data }

/-- FileDataSequenceHeader (mdb_shard, not under src/; modelled from the
spec): header carrying the file hash and the segment count. -/
structure FileDataSequenceHeader where
  file_hash : List Nat
  num_entries : Nat
deriving DecidableEq, Repr

/-- FileDataSequenceEntry (mdb_shard, not under src/; modelled from the spec):
one segment carrying the term's chunk hash, unpacked length and chunk index
range. -/
structure FileDataSequenceEntry where
  cas_hash : List Nat
  unpacked_segment_bytes : Nat
  chunk_index_start : Nat
  chunk_index_end : Nat
deriving DecidableEq, Repr

/-- MDBFileInfo (mdb_shard, not under src/; modelled from the spec): the
file-manifest representation, a header paired with the segments. -/
structure MDBFileInfo where
  metadata : FileDataSequenceHeader
  segments : List FileDataSequenceEntry
deriving DecidableEq, Repr

/-- The translation step of HttpShardClient::get_file_reconstruction_info
(http_shard_client.rs lines 135-155): from the parsed
QueryReconstructionResponse build the MDBFileInfo — header from the queried
file hash and the number of reconstruction terms, one segment per term from
its hash, unpacked_length and chunk index range — paired with no shard
hash. -/
def getFileReconstructionInfo (file_hash : List Nat)
    (resp : CasTypes.QueryReconstructionResponse) : MDBFileInfo × Option (List Nat) :=
  ({ metadata := ⟨file_hash, resp.reconstruction.length⟩,
     segments := resp.reconstruction.map fun ce =>
       ⟨ce.hash, ce.unpacked_length, ce.range.start, ce.range.stop⟩ }, none)

/-- retry_http_status_code (http_shard_client.rs lines 53-55): HTTP server
errors (500..=599, reqwest StatusCode::is_server_error) and 429 Too Many
Requests are retriable. -/
def retry_http_status_code (stat : Nat) : Bool :=
  (decide (500 ≤ stat) && decide (stat ≤ 599)) || stat == 429

/-- is_status_retriable_and_print (http_shard_client.rs lines 57-67): an
error carrying no HTTP status (a network-level failure) is always retried;
otherwise the status decides.  The warn log is diagnostic only and not
modelled. -/
def is_status_retriable (status : Option Nat) : Bool :=
  (status.map retry_http_status_code).getD true

/-- Modelled from the spec (the retry_strategy crate is not under src/):
sequential retry with at most maxAttempts attempts in total; attempt i has
outcome f i; a retriable error (per pred) is retried while attempts remain,
any other error and any success ends the loop.  Returns the number of
attempts performed and the final result.  Backoff delays are timing-only and
not modelled. -/
def retryAux {ε α : Type} (pred : ε → Bool) (f : Nat → Except ε α) (i : Nat) :
    Nat → Nat × Except ε α
  | 0 => (1, f i)
  | remaining + 1 =>
    match f i with
    | .ok a => (1, .ok a)
    | .error e =>
      if pred e then
        let r := retryAux pred f (i + 1) remaining
        (r.1 + 1, r.2)
      else (1, .error e)

/-- RetryStrategy::retry with maxAttempts as the attempt ceiling (modelled
from the spec). -/
def retryRun {ε α : Type} (pred : ε → Bool) (maxAttempts : Nat)
    (f : Nat → Except ε α) : Nat × Except ε α :=
  retryAux pred f 0 (maxAttempts - 1)

/-- One record of a well-formed dedup-probe response body, in structured
form: the key's namespace prefix and hash, and the shard content bytes. -/
structure DedupRecord where
  pfx : List Nat
  hash : List Nat
  content : List Nat
deriving DecidableEq, Repr

/-- The canonical key bytes of a record: "prefix/hex-hash". -/
def keyBytes (r : DedupRecord) : List Nat :=
  r.pfx ++ 47 :: CasTypes.bytesToHex r.hash

/-- On-the-wire encoding of one dedup-probe record: little-endian u32 key
length, key bytes, little-endian u32 content length, content bytes. -/
def encodeDedupRecord (r : DedupRecord) : List Nat :=
  le32 (keyBytes r).length ++ keyBytes r ++ le32 r.content.length ++ r.content

/-- Well-formedness of a record per the wire format: non-empty ASCII prefix,
32 hash bytes, and both length prefixes within u32 range. -/
def wfDedupRecord (r : DedupRecord) : Prop :=
  r.pfx ≠ [] ∧ (∀ c ∈ r.pfx, c < 128) ∧ r.hash.length = 32 ∧
  (∀ b ∈ r.hash, b < 256) ∧ (keyBytes r).length < 4294967296 ∧
  r.content.length < 4294967296

instance (r : DedupRecord) : Decidable (wfDedupRecord r) := by
  unfold wfDedupRecord; infer_instance

theorem readU32_le32 (n : Nat) (rest : List Nat) (h : n < 4294967296) :
    readU32 (le32 n ++ rest) = some (n, rest) := by
  have hv : n % 256 + 256 * (n / 256 % 256) + 65536 * (n / 65536 % 256)
      + 16777216 * (n / 16777216 % 256) = n := by omega
  simp [le32, readU32, hv]

theorem readU32_eq_none {bs : List Nat} (h : bs.length < 4) : readU32 bs = none := by
  match bs with
  | [] => rfl
  | [_] => rfl
  | [_, _] => rfl
  | [_, _, _] => rfl
  | _ :: _ :: _ :: _ :: _ => exact absurd h (by simp)

theorem parseKeyBytes_keyBytes (r : DedupRecord) (hw : wfDedupRecord r) :
    parseKeyBytes (keyBytes r) = .ok ⟨r.pfx, r.hash⟩ := by
  obtain ⟨hp, hpa, hhl, hhb, -, -⟩ := hw
  have hascii : (keyBytes r).all (· < 128) = true := by
    rw [List.all_eq_true]
    intro c hc
    rw [keyBytes, List.mem_append, List.mem_cons] at hc
    rcases hc with hc | hc | hc
    · simpa using hpa c hc
    · simp [hc]
    · simpa using (CasTypes.mem_bytesToHex hhb c hc).1
  rw [parseKeyBytes, fromUtf8Ascii, if_pos hascii]
  have hk : CasTypes.Key.fromStr (keyBytes r) = some ⟨r.pfx, r.hash⟩ :=
    CasTypes.Key.fromStr_display ⟨r.pfx, r.hash⟩ hp hhl hhb
  simp [hk]

/-- The record loop ends cleanly when the length-prefix read fails: any body
shorter than 4 bytes parses to no records and no writes. -/
theorem parseDedupRecords_short (cacheDir : List Nat) {bs : List Nat}
    (h : bs.length < 4) : parseDedupRecords cacheDir bs = .ok ([], []) := by
  rw [parseDedupRecords.eq_def]
  split
  · rfl
  · rename_i keyLen rest heq
    rw [readU32_eq_none h] at heq
    exact absurd heq (by simp)

/-- Parsing the concatenated encoding of well-formed records returns the
hashes in record order and one cache write per record, the file named from
the hex of the hash with extension mdb under the cache directory, holding the
record's content bytes. -/
theorem parseDedupRecords_encode (cacheDir : List Nat) :
    ∀ recs : List DedupRecord, (∀ r ∈ recs, wfDedupRecord r) →
    parseDedupRecords cacheDir ((recs.map encodeDedupRecord).flatten)
      = .ok (recs.map (fun r => r.hash),
             recs.map fun r => (cacheDir ++ 47 :: localShardName r.hash, r.content)) := by
  intro recs
  induction recs with
  | nil => intro _; exact parseDedupRecords_short cacheDir (by simp)
  | cons r t ih =>
    intro hwf
    have hr : wfDedupRecord r := hwf r (by simp)
    obtain ⟨hp, hpa, hhl, hhb, hkl, hcl⟩ := hr
    have hbs : (((r :: t).map encodeDedupRecord).flatten : List Nat)
        = le32 (keyBytes r).length ++ (keyBytes r ++ (le32 r.content.length
            ++ (r.content ++ (t.map encodeDedupRecord).flatten))) := by
      simp [encodeDedupRecord, List.append_assoc]
    rw [hbs, parseDedupRecords.eq_def]
    split
    · rename_i heq
      rw [readU32_le32 _ _ hkl] at heq
      exact absurd heq (by simp)
    · rename_i keyLen rest heq
      rw [readU32_le32 _ _ hkl] at heq
      obtain ⟨rfl, rfl⟩ := by simpa using heq.symm
      rw [dif_neg (by simp)]
      rw [List.take_left, List.drop_left]
      rw [parseKeyBytes_keyBytes r ⟨hp, hpa, hhl, hhb, hkl, hcl⟩]
      simp only
      split
      · rename_i heq2
        rw [readU32_le32 _ _ hcl] at heq2
        exact absurd heq2 (by simp)
      · rename_i contentLen rest3 heq2
        rw [readU32_le32 _ _ hcl] at heq2
        obtain ⟨rfl, rfl⟩ := by simpa using heq2.symm
        rw [dif_neg (by simp)]
        rw [List.take_left, List.drop_left]
        rw [ih (fun x hx => hwf x (by simp [hx]))]
        simp

end ShardClient

/-- C1: for every compression scheme s in {None, LZ4, ByteGrouping4LZ4,
ByteGrouping2LZ4} and every byte sequence x (including the empty sequence),
decompressing the result of compressing x under s yields exactly x. -/
theorem c1_compression_roundtrip (s : CasObject.CompressionScheme) (x : List Nat) :
    (s.compress_from_slice x).bind s.decompress_from_slice = Except.ok x := by
  cases s <;>
    simp [CasObject.CompressionScheme.compress_from_slice,
      CasObject.CompressionScheme.decompress_from_slice,
      CasObject.lz4_compress_from_slice, CasObject.lz4_decompress_from_slice,
      CasObject.bg4_lz4_compress_from_slice, CasObject.bg4_lz4_decompress_from_slice,
      CasObject.bg2_lz4_compress_from_slice, CasObject.bg2_lz4_decompress_from_slice,
      CasObject.lz4FrameDecode_lz4FrameEncode, Except.map, Except.bind,
      CasObject.bg4_regroup, CasObject.bg4_split,
      CasObject.bg2_regroup, CasObject.bg2_split,
      CasObject.bgRegroup_bgSplit]

/-- C3: for every byte sequence x and every group count n in {2, 4}, including
lengths not evenly divisible by n, regrouping the split of x is the identity:
regroup(split(x, n), n) = x. -/
theorem c3_byte_grouping_inverse (x : List Nat) :
    CasObject.bg2_regroup (CasObject.bg2_split x) = x ∧
    CasObject.bg4_regroup (CasObject.bg4_split x) = x :=
  ⟨CasObject.bgRegroup_bgSplit 2 x, CasObject.bgRegroup_bgSplit 4 x⟩

/-- C4: parsing a compression-scheme tag byte succeeds exactly for the byte
values 0, 1, 2, 3 (mapping them to None, LZ4, ByteGrouping4LZ4 and
ByteGrouping2LZ4 respectively) and fails with a format error for every byte
value 4 <= b < 256; for b in {0,1,2,3}, converting the parsed scheme back to
its byte yields b. -/
theorem c4_scheme_tag_bijection :
    CasObject.CompressionScheme.tryFromByte 0 = .ok CasObject.CompressionScheme.None ∧
    CasObject.CompressionScheme.tryFromByte 1 = .ok CasObject.CompressionScheme.LZ4 ∧
    CasObject.CompressionScheme.tryFromByte 2 = .ok CasObject.CompressionScheme.ByteGrouping4LZ4 ∧
    CasObject.CompressionScheme.tryFromByte 3 = .ok CasObject.CompressionScheme.ByteGrouping2LZ4 ∧
    (∀ b : Nat, b < 4 →
      ∃ s, CasObject.CompressionScheme.tryFromByte b = .ok s ∧ s.toByte = b) ∧
    (∀ b : Nat, 4 ≤ b → b < 256 →
      ∃ m, CasObject.CompressionScheme.tryFromByte b = .error (.FormatError m)) := by
  refine ⟨rfl, rfl, rfl, rfl, ?_, ?_⟩
  · intro b hb
    interval_cases b
    · exact ⟨_, rfl, rfl⟩
    · exact ⟨_, rfl, rfl⟩
    · exact ⟨_, rfl, rfl⟩
    · exact ⟨_, rfl, rfl⟩
  · intro b hb4 hb256
    refine ⟨"cannot convert value " ++ toString b ++ " to CompressionScheme", ?_⟩
    match b, hb4 with
    | (m + 4), _ => rfl

/-- Witness for C4 at concrete inputs: b = 3 parses to ByteGrouping2LZ4 and
maps back to 3, and b = 200 fails with a format error. -/
theorem c4_scheme_tag_bijection_witness :
    (∃ s, CasObject.CompressionScheme.tryFromByte 3 = .ok s ∧ s.toByte = 3) ∧
    (∃ m, CasObject.CompressionScheme.tryFromByte 200 = .error (.FormatError m)) :=
  ⟨c4_scheme_tag_bijection.2.2.2.2.1 3 (by decide),
   c4_scheme_tag_bijection.2.2.2.2.2 200 (by decide) (by decide)⟩

/-- C2 counterexample: the claim also asserts that offset_into_first_range is
preserved unchanged in the translated manifest, but the translation discards
it — two responses identical except for the offset (10 versus 99; the term is
the one of the spec's example) translate to the same manifest, so the offset
is not preserved. -/
theorem c2_offset_dropped :
    ShardClient.getFileReconstructionInfo (List.replicate 32 1)
        ⟨10, [⟨List.replicate 32 0, 100, ⟨0, 1⟩, "U", ⟨0, 100⟩⟩]⟩
      = ShardClient.getFileReconstructionInfo (List.replicate 32 1)
        ⟨99, [⟨List.replicate 32 0, 100, ⟨0, 1⟩, "U", ⟨0, 100⟩⟩]⟩
    ∧ (10 : Nat) ≠ 99 :=
  ⟨rfl, by decide⟩

/-- C2 (amended): for every parsed reconstruction response the translated
manifest pairs a header carrying the queried file hash and a segment count
equal to the number of terms with one segment per term preserving that term's
chunk hash, unpacked_length and chunk index range; the offset_into_first_range
value is discarded by the translation (the manifest does not depend on it). -/
theorem c2_manifest_translation (fileHash : List Nat)
    (resp : CasTypes.QueryReconstructionResponse) :
    (ShardClient.getFileReconstructionInfo fileHash resp).1.metadata.file_hash = fileHash ∧
    (ShardClient.getFileReconstructionInfo fileHash resp).1.metadata.num_entries
      = resp.reconstruction.length ∧
    (ShardClient.getFileReconstructionInfo fileHash resp).1.segments.length
      = resp.reconstruction.length ∧
    (∀ i : Nat,
      ((ShardClient.getFileReconstructionInfo fileHash resp).1.segments[i]?).map
          (fun s => (s.cas_hash, s.unpacked_segment_bytes, s.chunk_index_start,
            s.chunk_index_end))
        = (resp.reconstruction[i]?).map
          (fun t => (t.hash, t.unpacked_length, t.range.start, t.range.stop))) ∧
    (∀ ofs : Nat,
      ShardClient.getFileReconstructionInfo fileHash
          { resp with offset_into_first_range := ofs }
        = ShardClient.getFileReconstructionInfo fileHash resp) := by
  refine ⟨rfl, rfl, by simp [ShardClient.getFileReconstructionInfo], ?_, fun ofs => rfl⟩
  intro i
  cases hi : resp.reconstruction[i]? with
  | none => simp [ShardClient.getFileReconstructionInfo, List.getElem?_map, hi]
  | some t => simp [ShardClient.getFileReconstructionInfo, List.getElem?_map, hi]

/-- C5: the retry predicate classifies an attempt as retriable iff the error
carries no HTTP status (network-level failure) or the status is a server
error (5xx) or 429; any other status is terminal, so a first-attempt 404
response results in exactly one attempt, whatever the attempt ceiling. -/
theorem c5_retry_predicate :
    (∀ status : Option Nat, ShardClient.is_status_retriable status = true ↔
      (status = none ∨ ∃ c, status = some c ∧ ((500 ≤ c ∧ c ≤ 599) ∨ c = 429))) ∧
    (∀ (α : Type) (maxAttempts : Nat) (f : Nat → Except (Option Nat) α),
      f 0 = .error (some 404) →
      ShardClient.retryRun ShardClient.is_status_retriable maxAttempts f
        = (1, .error (some 404))) := by
  constructor
  · intro status
    cases status with
    | none => simp [ShardClient.is_status_retriable]
    | some c =>
      simp [ShardClient.is_status_retriable, ShardClient.retry_http_status_code]
  · intro α maxAttempts f hf
    cases h : maxAttempts - 1 with
    | zero => simp [ShardClient.retryRun, ShardClient.retryAux, h, hf]
    | succ m =>
      simp [ShardClient.retryRun, ShardClient.retryAux, h, hf,
        ShardClient.is_status_retriable, ShardClient.retry_http_status_code]

/-- Witness for C5: with ceiling 5 and a transport whose first attempt is a
404, exactly one attempt is made. -/
theorem c5_retry_predicate_witness :
    ShardClient.retryRun ShardClient.is_status_retriable 5
        (fun _ => Except.error (some 404) : Nat → Except (Option Nat) Nat)
      = (1, .error (some 404)) :=
  c5_retry_predicate.2 Nat 5 _ rfl

/-- C6: get_dedup_shards on a client without a configured cache directory
returns an InvalidConfig error and issues no request: the URL list is empty,
the error being produced before any URL is built. -/
theorem c6_config_gate (c : ShardClient.HttpShardClient) (pfx : List Nat)
    (chunk_hash : List (List Nat)) (salt : List Nat) (responseBody : List Nat)
    (h : c.cacheDirectory = none) :
    ShardClient.getDedupShards c pfx chunk_hash salt responseBody
      = ([], .err (.InvalidConfig "cache directory not configured for shard storage")) := by
  simp [ShardClient.getDedupShards, h]

/-- Witness for C6 at a concrete client with no cache directory. -/
theorem c6_config_gate_witness :
    ShardClient.getDedupShards ⟨[], none⟩ [110] [[1]] [0] []
      = ([], .err (.InvalidConfig "cache directory not configured for shard storage")) :=
  c6_config_gate ⟨[], none⟩ [110] [[1]] [0] [] rfl

/-- C9: upload_shard and get_dedup_shards ignore the salt argument — two
calls differing only in the salt produce identical requests, results and
cache writes, under the same transport behavior. -/
theorem c9_salt_independence (c : ShardClient.HttpShardClient) (pfx hash : List Nat)
    (force_sync : Bool) (shard_data : List Nat) (salt1 salt2 : List Nat)
    (transport : ShardClient.UploadRequest →
      Except ShardClient.ShardClientError CasTypes.UploadShardResponse)
    (chunk_hash : List (List Nat)) (responseBody : List Nat) :
    ShardClient.uploadShard c pfx hash force_sync shard_data salt1 transport
      = ShardClient.uploadShard c pfx hash force_sync shard_data salt2 transport ∧
    ShardClient.getDedupShards c pfx chunk_hash salt1 responseBody
      = ShardClient.getDedupShards c pfx chunk_hash salt2 responseBody :=
  ⟨rfl, rfl⟩

/-- C10 counterexample: the claim asserts get_dedup_shards unconditionally
indexes chunk_hash[0] so that an empty slice panics instead of returning an
error; but with no cache directory configured the call returns the
InvalidConfig error without reaching the index, so an empty-slice call does
not panic there. -/
theorem c10_empty_slice_no_crash :
    ShardClient.getDedupShards ⟨[], none⟩ [110] [] [0] []
      = ([], .err (.InvalidConfig "cache directory not configured for shard storage")) ∧
    (ShardClient.Outcome.err
        (.InvalidConfig "cache directory not configured for shard storage")
      : ShardClient.Outcome (List (List Nat) × List (List Nat × List Nat)))
      ≠ ShardClient.Outcome.crash := by
  refine ⟨rfl, ?_⟩
  intro h
  exact ShardClient.Outcome.noConfusion h

/-- C10 (amended): get_dedup_shards indexes chunk_hash[0] only after the
cache-directory gate: with a configured cache directory an empty-slice call
crashes (the index is out of bounds) rather than returning an error, while
under the hypothesis of a non-empty slice the access is in-bounds, the call
never crashes, and only the first hash is used (the remaining hashes do not
affect the result); with no cache directory the configuration error is
returned first. -/
theorem c10_first_hash_only (c : ShardClient.HttpShardClient) (d : List Nat)
    (pfx salt responseBody : List Nat) (hd : c.cacheDirectory = some d) :
    (ShardClient.getDedupShards c pfx [] salt responseBody).2 = .crash ∧
    (∀ (h0 : List Nat) (rest1 rest2 : List (List Nat)),
      ShardClient.getDedupShards c pfx (h0 :: rest1) salt responseBody
        = ShardClient.getDedupShards c pfx (h0 :: rest2) salt responseBody ∧
      (ShardClient.getDedupShards c pfx (h0 :: rest1) salt responseBody).2 ≠ .crash) := by
  refine ⟨by simp [ShardClient.getDedupShards, hd], fun h0 rest1 rest2 => ⟨rfl, ?_⟩⟩
  simp only [ShardClient.getDedupShards, hd]
  cases hpr : ShardClient.parseDedupRecords d responseBody with
  | error e => simp
  | ok v => cases v with | mk a b => simp

/-- Witness for C10 (amended) at a concrete configured client: the empty
slice crashes, a one-element slice does not. -/
theorem c10_first_hash_only_witness :
    (ShardClient.getDedupShards ⟨[], some [100]⟩ [110] [] [0] []).2
        = ShardClient.Outcome.crash ∧
    (ShardClient.getDedupShards ⟨[], some [100]⟩ [110] [[1]] [0] []
        = ShardClient.getDedupShards ⟨[], some [100]⟩ [110] [[1], [2]] [0] [] ∧
      (ShardClient.getDedupShards ⟨[], some [100]⟩ [110] [[1]] [0] []).2
        ≠ ShardClient.Outcome.crash) :=
  ⟨(c10_first_hash_only ⟨[], some [100]⟩ [100] [110] [0] [] rfl).1,
   (c10_first_hash_only ⟨[], some [100]⟩ [100] [110] [0] [] rfl).2 [1] [] [[2]]⟩

namespace CasClient

/-- Splice bytes into contents at position pos: bytes before pos are kept
(zero-filled when the destination is shorter than pos), the written bytes
overwrite from pos on, and bytes past the written region are kept.  This is
the observable effect of a positioned write both on a file and on a
Cursor-backed Vec. -/
def writeAt (contents : List Nat) (pos : Nat) (buf : List Nat) : List Nat :=
  contents.take pos ++ List.replicate (pos - contents.length) 0 ++ buf
    ++ contents.drop (pos + buf.length)

/-- A writer into a destination: current contents plus write position. -/
structure Writer where
  contents : List Nat
  pos : Nat
deriving DecidableEq, Repr

/-- One sequential write through a writer. -/
def Writer.write (w : Writer) (buf : List Nat) : Writer :=
  { contents := writeAt w.contents w.pos buf, pos := w.pos + buf.length }

/-- FileWriteProvider::get_writer_at (interface.rs lines 104-112): open or
create the file, seek to start, return a writer positioned there. -/
def fileGetWriterAt (fileContents : List Nat) (start : Nat) : Writer :=
  { contents := fileContents, pos := start }

/-- ThreadSafeBuffer (interface.rs lines 182-203): a shared Cursor over a
growable Vec; a fresh buffer's cursor is at position 0. -/
structure ThreadSafeBuffer where
  data : List Nat
  cursor : Nat
deriving DecidableEq, Repr

/-- The default (fresh) ThreadSafeBuffer. -/
def ThreadSafeBuffer.fresh : ThreadSafeBuffer := ⟨[], 0⟩

/-- BufferProvider::get_writer_at (interface.rs lines 176-180): the start
offset is ignored (the source returns a clone of the shared buffer, with a
TODO to fix this once writing happens in parallel); the returned writer
writes at the buffer's own cursor position. -/
def bufferGetWriterAt (buf : ThreadSafeBuffer) (_start : Nat) : Writer :=
  { contents := buf.data, pos := buf.cursor }

/-- WriteProvider (interface.rs lines 75-92): file-backed or (test-only)
memory-backed destination. -/
inductive WriteProvider where
  | File (fileContents : List Nat)
  | Buffer (buf : ThreadSafeBuffer)
deriving DecidableEq, Repr

/-- WriteProvider::get_writer_at (interface.rs lines 83-92): dispatch to the
variant. -/
def WriteProvider.get_writer_at : WriteProvider → Nat → Writer
  | .File fc, start => fileGetWriterAt fc start
  | .Buffer b, start => bufferGetWriterAt b start

end CasClient

/-- C8: the claim asserts that for every WriteProvider variant the writer
returned by get_writer_at(offset) places subsequent sequential writes
starting at byte position offset.  The file-backed variant does (seek to
start); the memory-backed variant ignores the offset and writes at the shared
buffer's cursor: on a fresh buffer, get_writer_at(5) followed by writing the
single byte 42 puts it at position 0, where the claim (and the
get_writer_at doc comment in the source) requires [0,0,0,0,0,42]. -/
theorem c8_buffer_ignores_offset :
    ((CasClient.WriteProvider.Buffer CasClient.ThreadSafeBuffer.fresh).get_writer_at 5).write
        [42] = { contents := [42], pos := 1 } ∧
    { contents := [42], pos := 1 } ≠
      (CasClient.Writer.mk [0, 0, 0, 0, 0, 42] 6) ∧
    ((CasClient.WriteProvider.File []).get_writer_at 5).write [42]
      = { contents := [0, 0, 0, 0, 0, 42], pos := 6 } := by
  refine ⟨by decide, by decide, by decide⟩

/-- C7: for every well-formed dedup-probe response body (zero or more
records, each a little-endian u32 key length, that many key bytes forming a
"prefix/hex-hash" string, a little-endian u32 content length and that many
content bytes), get_dedup_shards returns the hash parsed from each record's
key in record order, and its completed writes place each record's content
bytes in the cache-directory file named hex(hash).mdb; the record loop ends
when a length-prefix read fails (any leftover shorter than 4 bytes parses as
end of records). -/
theorem c7_dedup_probe_parsing (endpoint dir pfx h0 salt : List Nat)
    (recs : List ShardClient.DedupRecord)
    (hwf : ∀ r ∈ recs, ShardClient.wfDedupRecord r) :
    ShardClient.getDedupShards ⟨endpoint, some dir⟩ pfx [h0] salt
        ((recs.map ShardClient.encodeDedupRecord).flatten)
      = ([endpoint ++ CasTypes.asciiBytes "/chunk/" ++ CasTypes.Key.display ⟨pfx, h0⟩],
         .ok (recs.map (fun r => r.hash),
              recs.map fun r =>
                (dir ++ 47 :: ShardClient.localShardName r.hash, r.content))) ∧
    (∀ short : List Nat, short.length < 4 →
      ShardClient.parseDedupRecords dir short = .ok ([], [])) := by
  constructor
  · rw [ShardClient.getDedupShards]
    simp only
    rw [ShardClient.parseDedupRecords_encode dir recs hwf]
  · intro short hshort
    exact ShardClient.parseDedupRecords_short dir hshort

/-- Witness for C7: the spec's two-record example — keys "ns/aa...a" and
"ns/bb...b", contents X and YZ — yields both hashes in order and the two
cache files aa...a.mdb and bb...b.mdb with contents X and YZ. -/
theorem c7_dedup_probe_parsing_witness :
    ShardClient.getDedupShards ⟨[], some [100]⟩ [110, 115] [[1]] [0]
        (([⟨[110, 115], List.replicate 32 170, [88]⟩,
           ⟨[110, 115], List.replicate 32 187, [89, 90]⟩].map
            ShardClient.encodeDedupRecord).flatten)
      = ([[] ++ CasTypes.asciiBytes "/chunk/"
            ++ CasTypes.Key.display ⟨[110, 115], [1]⟩],
         .ok ([List.replicate 32 170, List.replicate 32 187],
              [([100] ++ 47 :: ShardClient.localShardName (List.replicate 32 170), [88]),
               ([100] ++ 47 :: ShardClient.localShardName (List.replicate 32 187),
                 [89, 90])])) :=
  (c7_dedup_probe_parsing [] [100] [110, 115] [1] [0]
    [⟨[110, 115], List.replicate 32 170, [88]⟩,
     ⟨[110, 115], List.replicate 32 187, [89, 90]⟩] (by decide)).1
